import Mathlib

/-!
Shallow embedding of the Personal Library Manager
(`src/Personal Library Manager/library_manager.py`).

Strings are modelled as lists of characters (`Str`), so that Python's
case folding (`str.lower`), substring containment (`in`) and truthiness
(`if s:`) become executable Lean functions.  The JSON store file is
modelled as `Option Json`: `none` is a missing file, `some j` a file
whose parsed content is the JSON value `j`.  Python's stable built-in
sort (`sorted(..., reverse=True)`) is realised by a structural stable
insertion sort `sortStable`; stability and sortedness together determine
the output of any stable sorting algorithm uniquely, so this is
extensionally the behaviour of the source.
-/

/-- Python strings, modelled as lists of characters. -/
abbrev Str := List Char

/-- Python's `s.lower()` applied characterwise. -/
def pyLower (s : Str) : Str := s.map Char.toLower

/-- One book record, the dictionary built in the Add Book branch:
`{"title", "author", "year", "genre", "read", "rating", "cover"}`. -/
structure Book where
  title : Str
  author : Str
  year : Int
  genre : Str
  read : Bool
  rating : Int
  cover : Str
deriving DecidableEq, Repr

/-- JSON values as far as the store file uses them: the file holds a JSON
array of flat objects with string, integer and boolean fields. -/
inductive Json where
  | jint : Int → Json
  | jstr : Str → Json
  | jbool : Bool → Json
  | jarr : List Json → Json
  | jobj : List (Str × Json) → Json

/-- Key `"title"`. -/
def kTitle : Str := ['t', 'i', 't', 'l', 'e']

/-- Key `"author"`. -/
def kAuthor : Str := ['a', 'u', 't', 'h', 'o', 'r']

/-- Key `"year"`. -/
def kYear : Str := ['y', 'e', 'a', 'r']

/-- Key `"genre"`. -/
def kGenre : Str := ['g', 'e', 'n', 'r', 'e']

/-- Key `"read"`. -/
def kRead : Str := ['r', 'e', 'a', 'd']

/-- Key `"rating"`. -/
def kRating : Str := ['r', 'a', 't', 'i', 'n', 'g']

/-- Key `"cover"`. -/
def kCover : Str := ['c', 'o', 'v', 'e', 'r']

/-- Serialization of one book dictionary, as `json.dump` writes it:
an object with the seven fields in insertion order. -/
def bookToJson (b : Book) : Json :=
  Json.jobj [(kTitle, Json.jstr b.title), (kAuthor, Json.jstr b.author),
    (kYear, Json.jint b.year), (kGenre, Json.jstr b.genre),
    (kRead, Json.jbool b.read), (kRating, Json.jint b.rating),
    (kCover, Json.jstr b.cover)]

/-- Dictionary lookup `d[k]` on a parsed JSON object. -/
def jlookup (kvs : List (Str × Json)) (k : Str) : Option Json :=
  match kvs.find? (fun p => p.1 == k) with
  | some p => some p.2
  | none => none

/-- Reading a string field of a parsed JSON value. -/
def asStr : Json → Option Str
  | Json.jstr s => some s
  | _ => none

/-- Reading an integer field of a parsed JSON value. -/
def asInt : Json → Option Int
  | Json.jint n => some n
  | _ => none

/-- Reading a boolean field of a parsed JSON value. -/
def asBool : Json → Option Bool
  | Json.jbool b => some b
  | _ => none

/-- Reading one book dictionary out of the parsed store file. -/
def parseBook (j : Json) : Option Book :=
  match j with
  | Json.jobj kvs => do
      let t ← jlookup kvs kTitle >>= asStr
      let a ← jlookup kvs kAuthor >>= asStr
      let y ← jlookup kvs kYear >>= asInt
      let g ← jlookup kvs kGenre >>= asStr
      let r ← jlookup kvs kRead >>= asBool
      let ra ← jlookup kvs kRating >>= asInt
      let c ← jlookup kvs kCover >>= asStr
      pure (Book.mk t a y g r ra c)
  | _ => none

/-- Reading the whole store file: a JSON array of book dictionaries. -/
def parseCatalog (j : Json) : Option (List Book) :=
  match j with
  | Json.jarr js => js.mapM parseBook
  | _ => none

/-- Python `save_data(data)`: serializes the full catalog to the store file. -/
def save_data (data : List Book) : Option Json :=
  some (Json.jarr (data.map bookToJson))

/-- Python `load_data()`: if the store file exists its JSON content is parsed
(`none` as result models a `json.load` type failure), otherwise the
function returns the empty catalog. -/
def load_data (file : Option Json) : Option (List Book) :=
  match file with
  | some j => parseCatalog j
  | none => some []

/-- The match predicate of the Search Books branch:
`query.lower() in b['title'].lower() or query.lower() in b['author'].lower()`. -/
def matchesQuery (q : Str) (b : Book) : Bool :=
  decide (pyLower q <:+: pyLower b.title) || decide (pyLower q <:+: pyLower b.author)

/-- The Search Books branch: a falsy (empty) query skips the search and
shows no results; otherwise the list comprehension filters the catalog. -/
def searchBooks (q : Str) (lib : List Book) : List Book :=
  if q.isEmpty then [] else lib.filter (matchesQuery q)

/-- The three counters of the Statistics branch. -/
structure Stats where
  total : Nat
  read : Nat
  unread : Nat

/-- The Statistics branch: `total = len(library)`,
`read = sum(1 for b in library if b['read'])`, `unread = total - read`. -/
def statistics (lib : List Book) : Stats :=
  { total := lib.length
    read := (lib.filter (fun b => b.read)).length
    unread := lib.length - (lib.filter (fun b => b.read)).length }

/-- Result of the Add Book branch: the in-memory catalog, the store file
and whether the "fill all required fields" warning was shown. -/
structure AddResult where
  lib : List Book
  file : Option Json
  warned : Bool

/-- The Add Book branch: `if title and author and genre:` append the new
record and `save_data(library)`; otherwise only warn. -/
def addBook (lib : List Book) (file : Option Json) (b : Book) : AddResult :=
  if !b.title.isEmpty && !b.author.isEmpty && !b.genre.isEmpty then
    { lib := lib ++ [b], file := save_data (lib ++ [b]), warned := false }
  else
    { lib := lib, file := file, warned := true }

/-- The delete button of the View Library branch: `library.pop(i)`. -/
def deleteBook (lib : List Book) (i : Nat) : List Book :=
  lib.eraseIdx i

/-- Stable insertion of `x` into `l`: `x` goes in front of the first
element `y` with `le x y`.  Used to realise Python's stable sort. -/
def insertSorted {α : Type} (le : α → α → Bool) (x : α) : List α → List α
  | [] => [x]
  | y :: ys => if le x y then x :: y :: ys else y :: insertSorted le x ys

/-- Stable sort with respect to the boolean relation `le`; for a total
transitive `le` this is the unique stable `le`-ordering, hence the
output of Python's `sorted`. -/
def sortStable {α : Type} (le : α → α → Bool) : List α → List α
  | [] => []
  | x :: xs => insertSorted le x (sortStable le xs)

/-- The comparison realising `key=lambda x: x['rating'], reverse=True`:
`a` may precede `b` exactly when `a`'s rating is at least `b`'s. -/
def ratingDesc (a b : Book) : Bool := decide (b.rating ≤ a.rating)

/-- The Recommendations branch, top-rated part:
`sorted([b for b in library if b['rating'] >= 4], key=..., reverse=True)`
and then the slice `[:3]`. -/
def topRated (lib : List Book) : List Book :=
  (sortStable ratingDesc (lib.filter (fun b => decide (4 ≤ b.rating)))).take 3

/-- Python string comparison: lexicographic by Unicode code point. -/
def strLe : Str → Str → Bool
  | [], _ => true
  | _ :: _, [] => false
  | a :: as, b :: bs =>
    if a.toNat < b.toNat then true
    else if b.toNat < a.toNat then false
    else strLe as bs

/-- The distinct values occurring in a list of strings (order irrelevant,
the result is sorted afterwards). -/
def distinctVals : List Str → List Str
  | [] => []
  | x :: xs =>
    let r := distinctVals xs
    if r.contains x then r else x :: r

/-- Behaviour of `pandas.Series.mode()` on a series of strings: the distinct values of
maximal multiplicity, returned sorted in ascending order. -/
def seriesMode (l : List Str) : List Str :=
  let maxC := (l.map (fun v => l.count v)).foldr max 0
  sortStable strLe ((distinctVals l).filter (fun v => l.count v == maxC))

/-- The genre series of the Recommendations branch:
`[b['genre'] for b in library if b['read']]`. -/
def readGenres (lib : List Book) : List Str :=
  (lib.filter (fun b => b.read)).map (fun b => b.genre)

/-- The favourite-genre part of the Recommendations branch:
`most_read_genre = pd.Series(...).mode()`; a genre recommendation is
shown only `if most_read_genre.any():` (some mode value is truthy, i.e.
a non-empty string), and then the shown genre is `most_read_genre[0]`. -/
def mostReadGenre (lib : List Book) : Option Str :=
  let m := seriesMode (readGenres lib)
  if m.any (fun s => !s.isEmpty) then m.head? else none

/-- A sample record: read, rated 5. -/
def bkA : Book := Book.mk ['A', 'd', 'a'] ['L', 'o', 'v'] 1843 ['m'] true 5 []

/-- A sample record: unread, rated 2. -/
def bkB : Book := Book.mk ['Z', 'o', 't'] ['Q', 'u', 'x'] 1900 ['n'] false 2 []

/-- A sample record: read, rated 3. -/
def bkC : Book := Book.mk ['b', 'a', 't'] ['A', 'd', 'a', 'm'] 1950 ['p'] true 3 []

/-- A small sample catalog. -/
def demoLib : List Book := [bkA, bkB, bkC]

/-- Sample record rated 5. -/
def bk5 : Book := Book.mk ['v'] ['w'] 2001 ['g'] true 5 []

/-- Sample record rated 4 (first in catalog order). -/
def bk4a : Book := Book.mk ['x'] ['w'] 2002 ['g'] false 4 []

/-- Sample record rated 4 (second in catalog order). -/
def bk4b : Book := Book.mk ['y'] ['w'] 2003 ['h'] true 4 []

/-- Sample record rated 4 (third in catalog order). -/
def bk4c : Book := Book.mk ['z'] ['w'] 2004 ['h'] false 4 []

/-- Sample record rated 3, below the recommendation threshold. -/
def bk3 : Book := Book.mk ['q'] ['w'] 2005 ['g'] true 3 []

/-- A sample catalog for the top-rated recommendation. -/
def demoLib7 : List Book := [bk4a, bk3, bk5, bk4b, bk4c]

/-- A read record of genre "b". -/
def bkG1 : Book := Book.mk ['m'] ['w'] 2001 ['b'] true 4 []

/-- A read record of genre "a". -/
def bkG2 : Book := Book.mk ['n'] ['w'] 2002 ['a'] true 2 []

/-- An unread record of genre "c". -/
def bkG3 : Book := Book.mk ['o'] ['w'] 2003 ['c'] false 5 []

/-- A sample catalog whose read books tie between genres "a" and "b". -/
def demoLibG : List Book := [bkG1, bkG2, bkG3]

/-- A record with a non-empty title but empty author and genre: the Add
Book branch rejects it. -/
def cexBook : Book := Book.mk ['a'] [] 2000 [] false 3 []

/-- A record with an empty title: the Add Book branch rejects it. -/
def invBook : Book := Book.mk [] ['a'] 2000 ['g'] false 1 []

theorem mem_insertSorted {α : Type} (le : α → α → Bool) (x a : α) (l : List α) :
    a ∈ insertSorted le x l ↔ a = x ∨ a ∈ l := by
  induction l with
  | nil => simp [insertSorted]
  | cons y ys ih =>
    rw [insertSorted]
    cases hxy : le x y
    · simp only [Bool.false_eq_true, if_false, List.mem_cons, ih, List.mem_cons]
      tauto
    · simp only [if_true, List.mem_cons]

theorem insertSorted_perm {α : Type} (le : α → α → Bool) (x : α) (l : List α) :
    (insertSorted le x l).Perm (x :: l) := by
  induction l with
  | nil => exact List.Perm.refl [x]
  | cons y ys ih =>
    rw [insertSorted]
    cases hxy : le x y
    · simp only [Bool.false_eq_true, if_false]
      exact (ih.cons y).trans (List.Perm.swap x y ys)
    · simp only [if_true]
      exact List.Perm.refl _

theorem sortStable_perm {α : Type} (le : α → α → Bool) (l : List α) :
    (sortStable le l).Perm l := by
  induction l with
  | nil => exact List.Perm.refl []
  | cons x xs ih =>
    exact (insertSorted_perm le x (sortStable le xs)).trans (ih.cons x)

theorem pairwise_insertSorted {α : Type} {le : α → α → Bool}
    (htrans : ∀ a b c, le a b = true → le b c = true → le a c = true)
    (htotal : ∀ a b, le a b = false → le b a = true)
    (x : α) (l : List α) (hl : List.Pairwise (fun a b => le a b = true) l) :
    List.Pairwise (fun a b => le a b = true) (insertSorted le x l) := by
  induction l with
  | nil => simp [insertSorted]
  | cons y ys ih =>
    rcases List.pairwise_cons.mp hl with ⟨hy, hys⟩
    rw [insertSorted]
    cases hxy : le x y
    · simp only [Bool.false_eq_true, if_false]
      refine List.pairwise_cons.mpr ⟨?_, ih hys⟩
      intro z hz
      rcases (mem_insertSorted le x z ys).mp hz with rfl | hz'
      · exact htotal _ _ hxy
      · exact hy z hz'
    · simp only [if_true]
      refine List.pairwise_cons.mpr ⟨?_, hl⟩
      intro z hz
      rcases List.mem_cons.mp hz with rfl | hz'
      · exact hxy
      · exact htrans x y z hxy (hy z hz')

theorem pairwise_sortStable {α : Type} {le : α → α → Bool}
    (htrans : ∀ a b c, le a b = true → le b c = true → le a c = true)
    (htotal : ∀ a b, le a b = false → le b a = true)
    (l : List α) :
    List.Pairwise (fun a b => le a b = true) (sortStable le l) := by
  induction l with
  | nil => simp [sortStable]
  | cons x xs ih => exact pairwise_insertSorted htrans htotal x _ ih

theorem filter_insertSorted_pos {α : Type} (le : α → α → Bool) (p : α → Bool)
    (x : α) (l : List α) (hpx : p x = true)
    (hcompat : ∀ y ∈ l, p y = true → le x y = true) :
    (insertSorted le x l).filter p = x :: l.filter p := by
  induction l with
  | nil => simp [insertSorted, hpx]
  | cons y ys ih =>
    rw [insertSorted]
    cases hxy : le x y
    · have hpy : p y = false := by
        cases hpy : p y
        · rfl
        · exact absurd (hcompat y (List.mem_cons_self y ys) hpy) (by simp [hxy])
      simp only [Bool.false_eq_true, if_false, List.filter_cons, hpy]
      exact ih (fun z hz hpz => hcompat z (List.mem_cons_of_mem y hz) hpz)
    · simp only [if_true, List.filter_cons, hpx, if_true]

theorem filter_insertSorted_neg {α : Type} (le : α → α → Bool) (p : α → Bool)
    (x : α) (l : List α) (hpx : p x = false) :
    (insertSorted le x l).filter p = l.filter p := by
  induction l with
  | nil => simp [insertSorted, hpx]
  | cons y ys ih =>
    rw [insertSorted]
    cases hxy : le x y
    · simp only [Bool.false_eq_true, if_false, List.filter_cons, ih]
    · simp only [if_true, List.filter_cons, hpx]
      simp

theorem filter_sortStable {α : Type} {le : α → α → Bool} (p : α → Bool)
    (hcompat : ∀ x y, p x = true → p y = true → le x y = true) (l : List α) :
    (sortStable le l).filter p = l.filter p := by
  induction l with
  | nil => rfl
  | cons x xs ih =>
    rw [sortStable]
    cases hpx : p x
    · rw [filter_insertSorted_neg le p x _ hpx, ih, List.filter_cons, hpx]
      simp
    · rw [filter_insertSorted_pos le p x _ hpx
        (fun y _ hpy => hcompat x y hpx hpy), ih, List.filter_cons, hpx]
      simp

theorem strLe_refl (s : Str) : strLe s s = true := by
  induction s with
  | nil => rfl
  | cons a as ih => simp [strLe, ih]

theorem strLe_total (a b : Str) : strLe a b = false → strLe b a = true := by
  induction a generalizing b with
  | nil => intro h; simp [strLe] at h
  | cons x xs ih =>
    intro h
    cases b with
    | nil => rfl
    | cons y ys =>
      rw [strLe] at h
      rw [strLe]
      rcases Nat.lt_trichotomy x.toNat y.toNat with h1 | h1 | h1
      · simp [h1] at h
      · have h3 : ¬ x.toNat < y.toNat := by omega
        have h4 : ¬ y.toNat < x.toNat := by omega
        simp [h3, h4] at h
        simp [h3, h4]
        exact ih ys h
      · simp [h1, Nat.lt_asymm h1]

theorem strLe_trans (a b c : Str) :
    strLe a b = true → strLe b c = true → strLe a c = true := by
  induction a generalizing b c with
  | nil => intro _ _; rfl
  | cons x xs ih =>
    intro hab hbc
    cases b with
    | nil => simp [strLe] at hab
    | cons y ys =>
      cases c with
      | nil => simp [strLe] at hbc
      | cons z zs =>
        rw [strLe] at hab hbc
        rw [strLe]
        rcases Nat.lt_trichotomy x.toNat y.toNat with h1 | h1 | h1 <;>
          rcases Nat.lt_trichotomy y.toNat z.toNat with h2 | h2 | h2
        · have hxz : x.toNat < z.toNat := by omega
          simp [hxz]
        · have hxz : x.toNat < z.toNat := by omega
          simp [hxz]
        · exfalso
          have h3 : ¬ y.toNat < z.toNat := by omega
          simp [h3, h2] at hbc
        · have hxz : x.toNat < z.toNat := by omega
          simp [hxz]
        · have h3 : ¬ x.toNat < z.toNat := by omega
          have h4 : ¬ z.toNat < x.toNat := by omega
          have h5 : ¬ x.toNat < y.toNat := by omega
          have h6 : ¬ y.toNat < x.toNat := by omega
          have h7 : ¬ y.toNat < z.toNat := by omega
          have h8 : ¬ z.toNat < y.toNat := by omega
          simp [h5, h6] at hab
          simp [h7, h8] at hbc
          simp [h3, h4]
          exact ih ys zs hab hbc
        · exfalso
          have h3 : ¬ y.toNat < z.toNat := by omega
          simp [h3, h2] at hbc
        · exfalso
          have h3 : ¬ x.toNat < y.toNat := by omega
          simp [h3, h1] at hab
        · exfalso
          have h3 : ¬ x.toNat < y.toNat := by omega
          simp [h3, h1] at hab
        · exfalso
          have h3 : ¬ x.toNat < y.toNat := by omega
          simp [h3, h1] at hab

theorem ratingDesc_trans (a b c : Book) :
    ratingDesc a b = true → ratingDesc b c = true → ratingDesc a c = true := by
  intro h1 h2
  simp [ratingDesc] at h1 h2 ⊢
  omega

theorem ratingDesc_total (a b : Book) : ratingDesc a b = false → ratingDesc b a = true := by
  intro h
  simp [ratingDesc] at h ⊢
  omega

theorem mem_distinctVals (l : List Str) : ∀ v : Str, v ∈ distinctVals l ↔ v ∈ l := by
  induction l with
  | nil => intro v; simp [distinctVals]
  | cons x xs ih =>
    intro v
    rw [distinctVals]
    cases hc : (distinctVals xs).contains x
    · simp only [Bool.false_eq_true, if_false, List.mem_cons, ih]
    · have hx : x ∈ xs := (ih x).mp (by
        have hc' : List.elem x (distinctVals xs) = true := hc
        exact (List.elem_iff).mp hc')
      simp only [if_true, ih, List.mem_cons]
      constructor
      · exact Or.inr
      · rintro (heq | hmem)
        · exact heq ▸ hx
        · exact hmem

theorem le_foldr_max (xs : List Nat) (x : Nat) (hx : x ∈ xs) :
    x ≤ xs.foldr max 0 := by
  induction xs with
  | nil => cases hx
  | cons y ys ih =>
    rcases List.mem_cons.mp hx with heq | hmem
    · exact heq ▸ le_max_left y (ys.foldr max 0)
    · exact le_trans (ih hmem) (le_max_right y (ys.foldr max 0))

theorem mem_seriesMode (l : List Str) (v : Str) :
    v ∈ seriesMode l ↔
      (v ∈ distinctVals l ∧
        l.count v = (l.map (fun w => l.count w)).foldr max 0) := by
  unfold seriesMode
  rw [(sortStable_perm strLe _).mem_iff, List.mem_filter]
  simp

theorem seriesMode_sorted (l : List Str) :
    List.Pairwise (fun a b => strLe a b = true) (seriesMode l) := by
  unfold seriesMode
  exact pairwise_sortStable strLe_trans strLe_total _

theorem parseBook_bookToJson (b : Book) : parseBook (bookToJson b) = some b := by
  cases b
  rfl

theorem parseCatalog_save (cat : List Book) :
    parseCatalog (Json.jarr (cat.map bookToJson)) = some cat := by
  induction cat with
  | nil => rfl
  | cons b bs ih =>
    simp only [parseCatalog, List.map_cons] at ih ⊢
    rw [List.mapM_cons, parseBook_bookToJson b, ih]
    rfl

/-- C1: for every catalog state, including the empty catalog, the Statistics
branch yields counters with read + unread = total, where total is the length
of the catalog and read is the number of records whose read field is true. -/
theorem statistics_consistent (lib : List Book) :
    (statistics lib).read + (statistics lib).unread = (statistics lib).total ∧
    (statistics lib).total = lib.length ∧
    (statistics lib).read = (lib.filter (fun b => b.read)).length := by
  refine ⟨?_, rfl, rfl⟩
  exact Nat.add_sub_cancel' (List.length_filter_le _ _)

/-- C2: for a non-empty query, the Search Books branch returns exactly the
records whose lowercased title or author contains the lowercased query as a
substring, and preserves catalog order (the result is a sublist of the
catalog). -/
theorem search_correct (q : Str) (lib : List Book) (hq : q ≠ []) :
    (searchBooks q lib).Sublist lib ∧
    ∀ b : Book, b ∈ searchBooks q lib ↔
      b ∈ lib ∧ (pyLower q <:+: pyLower b.title ∨ pyLower q <:+: pyLower b.author) := by
  have hne : q.isEmpty = false := by simp [List.isEmpty_iff, hq]
  have hrw : searchBooks q lib = lib.filter (matchesQuery q) := by
    unfold searchBooks
    rw [hne, if_neg Bool.false_ne_true]
  constructor
  · rw [hrw]
    exact List.filter_sublist lib
  · intro b
    rw [hrw, List.mem_filter]
    simp [matchesQuery]

/-- Witness for C2: a concrete query and catalog. -/
theorem search_correct_witness :
    (['a'] : Str) ≠ [] ∧
    (searchBooks ['a'] demoLib).Sublist demoLib ∧
    (bkA ∈ searchBooks ['a'] demoLib ↔
      bkA ∈ demoLib ∧
        (pyLower ['a'] <:+: pyLower bkA.title ∨ pyLower ['a'] <:+: pyLower bkA.author)) :=
  ⟨by decide, (search_correct ['a'] demoLib (by decide)).1,
    (search_correct ['a'] demoLib (by decide)).2 bkA⟩

/-- C3: saving a catalog and then loading yields the identical ordered
sequence of records. -/
theorem save_load_roundtrip (cat : List Book) :
    load_data (save_data cat) = some cat := by
  show parseCatalog (Json.jarr (cat.map bookToJson)) = some cat
  exact parseCatalog_save cat

/-- C4: deleting an in-range index i removes exactly the record at i: the
length drops by one, positions before i are unchanged, and each record
after i moves from position j+1 to position j. -/
theorem delete_correct (lib : List Book) (i : Nat) (hi : i < lib.length) :
    (deleteBook lib i).length = lib.length - 1 ∧
    (∀ j, j < i → (deleteBook lib i)[j]? = lib[j]?) ∧
    (∀ j, i ≤ j → (deleteBook lib i)[j]? = lib[j + 1]?) := by
  refine ⟨?_, ?_, ?_⟩
  · unfold deleteBook
    rw [List.length_eraseIdx, if_pos hi]
  · intro j hj
    exact List.getElem?_eraseIdx_of_lt lib i j hj
  · intro j hj
    exact List.getElem?_eraseIdx_of_ge lib i j hj

/-- Witness for C4: deleting index 1 of a concrete three-record catalog. -/
theorem delete_correct_witness :
    1 < demoLib.length ∧
    (deleteBook demoLib 1).length = demoLib.length - 1 ∧
    (deleteBook demoLib 1)[0]? = demoLib[0]? ∧
    (deleteBook demoLib 1)[1]? = demoLib[2]? :=
  ⟨by decide, (delete_correct demoLib 1 (by decide)).1,
    (delete_correct demoLib 1 (by decide)).2.1 0 (by decide),
    (delete_correct demoLib 1 (by decide)).2.2 1 (by decide)⟩

/-- C5 counterexample: a record with a non-empty title but an empty author
and genre is rejected by the Add Book branch, so searching its title
afterwards does not return it. -/
theorem add_then_search_cex :
    cexBook.title ≠ [] ∧
    cexBook ∉ searchBooks cexBook.title (addBook [] none cexBook).lib := by
  decide

/-- C5 (amended): for every catalog and every record whose title, author and
genre are all non-empty, after the Add Book branch a search on the record's
full title returns a result set containing the record. -/
theorem add_then_search_finds (lib : List Book) (file : Option Json) (b : Book)
    (ht : b.title ≠ []) (ha : b.author ≠ []) (hg : b.genre ≠ []) :
    b ∈ searchBooks b.title (addBook lib file b).lib := by
  have hcond : (!b.title.isEmpty && !b.author.isEmpty && !b.genre.isEmpty) = true := by
    simp [List.isEmpty_iff, ht, ha, hg]
  have hlib : (addBook lib file b).lib = lib ++ [b] := by
    unfold addBook
    rw [hcond, if_pos rfl]
  have hne : b.title.isEmpty = false := by simp [List.isEmpty_iff, ht]
  rw [hlib]
  unfold searchBooks
  rw [hne, if_neg Bool.false_ne_true]
  refine List.mem_filter.mpr ⟨List.mem_append_right lib (List.mem_singleton_self b), ?_⟩
  have hself : pyLower b.title <:+: pyLower b.title := List.infix_refl _
  simp [matchesQuery, hself]

/-- Witness for C5 (amended): adding a concrete valid record to a concrete
catalog and searching its title. -/
theorem add_then_search_finds_witness :
    bkB.title ≠ [] ∧ bkB.author ≠ [] ∧ bkB.genre ≠ [] ∧
    bkB ∈ searchBooks bkB.title (addBook demoLib none bkB).lib :=
  ⟨by decide, by decide, by decide,
    add_then_search_finds demoLib none bkB (by decide) (by decide) (by decide)⟩

/-- C6: loading a saved store returns the persisted ordered records, and
loading when no store file exists returns the empty catalog rather than an
error. -/
theorem load_data_missing_or_saved (cat : List Book) :
    load_data none = some [] ∧ load_data (save_data cat) = some cat :=
  ⟨rfl, by
    show parseCatalog (Json.jarr (cat.map bookToJson)) = some cat
    exact parseCatalog_save cat⟩

/-- C8: the empty query is falsy, so the Search Books branch skips the
search entirely and returns no results for any catalog. -/
theorem search_empty_query (lib : List Book) : searchBooks [] lib = [] := rfl

/-- C9: if any required field (title, author or genre) is empty, the Add
Book branch only warns: the in-memory catalog and the persisted store are
left unchanged, and no record is appended. -/
theorem add_invalid_unchanged (lib : List Book) (file : Option Json) (b : Book)
    (h : b.title = [] ∨ b.author = [] ∨ b.genre = []) :
    (addBook lib file b).lib = lib ∧ (addBook lib file b).file = file ∧
      (addBook lib file b).warned = true := by
  have hcond : (!b.title.isEmpty && !b.author.isEmpty && !b.genre.isEmpty) = false := by
    rcases h with h | h | h <;> simp [h]
  have hres : addBook lib file b = { lib := lib, file := file, warned := true } := by
    unfold addBook
    rw [hcond, if_neg Bool.false_ne_true]
  rw [hres]
  exact ⟨rfl, rfl, rfl⟩

/-- Witness for C9: a concrete record with an empty title leaves a concrete
catalog and store untouched. -/
theorem add_invalid_unchanged_witness :
    (invBook.title = [] ∨ invBook.author = [] ∨ invBook.genre = []) ∧
    (addBook demoLib none invBook).lib = demoLib ∧
    (addBook demoLib none invBook).file = none ∧
    (addBook demoLib none invBook).warned = true :=
  ⟨Or.inl rfl,
    (add_invalid_unchanged demoLib none invBook (Or.inl rfl)).1,
    (add_invalid_unchanged demoLib none invBook (Or.inl rfl)).2.1,
    (add_invalid_unchanged demoLib none invBook (Or.inl rfl)).2.2⟩

/-- C7: the top-rated recommendation contains only books rated at least 4;
it has min 3 n entries where n is the number of such books; it is ordered by
rating descending; within each rating value it is a prefix of the catalog's
qualifying books in original order (stable tie-break); and whenever some
qualifying book of rating r was left out, every shown book has rating at
least r (so the selection is the first three of the descending order). -/
theorem topRated_correct (lib : List Book) :
    (∀ b ∈ topRated lib, 4 ≤ b.rating) ∧
    (topRated lib).length = min 3 (lib.filter (fun b => decide (4 ≤ b.rating))).length ∧
    List.Pairwise (fun a b => b.rating ≤ a.rating) (topRated lib) ∧
    (∀ r : Int, (topRated lib).filter (fun b => b.rating == r) <+:
      (lib.filter (fun b => decide (4 ≤ b.rating))).filter (fun b => b.rating == r)) ∧
    (∀ r : Int,
      ((topRated lib).filter (fun b => b.rating == r)).length <
        ((lib.filter (fun b => decide (4 ≤ b.rating))).filter (fun b => b.rating == r)).length →
      ∀ b ∈ topRated lib, r ≤ b.rating) := by
  set F := lib.filter (fun b => decide (4 ≤ b.rating)) with hF
  set S := sortStable ratingDesc F with hS0
  have hTR : topRated lib = S.take 3 := by
    unfold topRated
    rw [← hF, ← hS0]
  rw [hTR]
  have hpairS : List.Pairwise (fun a b => ratingDesc a b = true) S := by
    rw [hS0]
    exact pairwise_sortStable ratingDesc_trans ratingDesc_total F
  have hpermS : S.Perm F := by
    rw [hS0]
    exact sortStable_perm ratingDesc F
  have hfil : ∀ r : Int, S.filter (fun b => b.rating == r)
      = F.filter (fun b => b.rating == r) := by
    intro r
    rw [hS0]
    refine filter_sortStable _ ?_ F
    intro x y hx hy
    have hx' : x.rating = r := by simpa using hx
    have hy' : y.rating = r := by simpa using hy
    simp [ratingDesc, hx', hy']
  refine ⟨?_, ?_, ?_, ?_, ?_⟩
  · intro b hb
    have hb2 : b ∈ F := hpermS.mem_iff.mp (List.take_subset 3 S hb)
    rw [hF] at hb2
    simpa using (List.mem_filter.mp hb2).2
  · rw [List.length_take, hpermS.length_eq]
  · exact (List.Pairwise.sublist (List.take_sublist 3 S) hpairS).imp
      (fun h => by simpa [ratingDesc] using h)
  · intro r
    refine ⟨(S.drop 3).filter (fun b => b.rating == r), ?_⟩
    rw [← List.filter_append, List.take_append_drop, hfil r]
  · intro r hlt b hb
    have hsplit : ((S.take 3).filter (fun x => x.rating == r)).length
        + ((S.drop 3).filter (fun x => x.rating == r)).length
        = (F.filter (fun x => x.rating == r)).length := by
      rw [← List.length_append, ← List.filter_append, List.take_append_drop, hfil r]
    have hpos : 0 < ((S.drop 3).filter (fun x => x.rating == r)).length := by omega
    obtain ⟨y, hy⟩ := List.exists_mem_of_length_pos hpos
    have hyr : y.rating = r := by simpa using (List.mem_filter.mp hy).2
    have hyd : y ∈ S.drop 3 := (List.mem_filter.mp hy).1
    have hpair2 : ∀ a ∈ S.take 3, ∀ c ∈ S.drop 3, ratingDesc a c = true := by
      have hS' : List.Pairwise (fun a b => ratingDesc a b = true) (S.take 3 ++ S.drop 3) := by
        rw [List.take_append_drop]
        exact hpairS
      exact (List.pairwise_append.mp hS').2.2
    have hle := hpair2 b hb y hyd
    simp [ratingDesc] at hle
    omega

/-- Witness for C7: a concrete catalog with one book rated 5 and three
rated 4; the selection keeps the 5 and the first two 4s. -/
theorem topRated_correct_witness :
    ((4 : Int) ≤ bk5.rating) ∧
    (((topRated demoLib7).filter (fun b => b.rating == (4 : Int))).length <
      (((demoLib7.filter (fun b => decide (4 ≤ b.rating))).filter
        (fun b => b.rating == (4 : Int)))).length) ∧
    ((4 : Int) ≤ bk4a.rating) :=
  ⟨(topRated_correct demoLib7).1 bk5 (by decide), by decide,
    (topRated_correct demoLib7).2.2.2.2 4 (by decide) bk4a (by decide)⟩

/-- C10: the favourite-genre recommendation: when no book is read there is
no genre recommendation at all; and whenever a genre g is recommended, g
occurs among the read books' genres, g is of maximal frequency there, and g
precedes (in code-point string order) every genre tied with it — the mode
series is sorted, so its first element is the smallest tied value. -/
theorem mostReadGenre_correct (lib : List Book) :
    (readGenres lib = [] → mostReadGenre lib = none) ∧
    (∀ g : Str, mostReadGenre lib = some g →
      g ∈ readGenres lib ∧
      (∀ x ∈ readGenres lib,
        List.count x (readGenres lib) ≤ List.count g (readGenres lib)) ∧
      (∀ x ∈ readGenres lib,
        List.count x (readGenres lib) = List.count g (readGenres lib) →
          strLe g x = true)) := by
  constructor
  · intro h
    unfold mostReadGenre
    rw [h]
    rfl
  · intro g hg
    unfold mostReadGenre at hg
    by_cases hany : (seriesMode (readGenres lib)).any (fun s => !s.isEmpty) = true
    · rw [if_pos hany] at hg
      have hgm : g ∈ seriesMode (readGenres lib) := by
        cases hmm : seriesMode (readGenres lib) with
        | nil => rw [hmm] at hg; simp at hg
        | cons g0 t =>
          rw [hmm] at hg
          rw [List.head?_cons] at hg
          have hg0 : g0 = g := Option.some.inj hg
          rw [hg0]
          exact List.mem_cons_self g t
      obtain ⟨hgd, hgc⟩ := (mem_seriesMode (readGenres lib) g).mp hgm
      have hgL : g ∈ readGenres lib := (mem_distinctVals (readGenres lib) g).mp hgd
      refine ⟨hgL, ?_, ?_⟩
      · intro x hx
        have hmap : List.count x (readGenres lib) ∈
            (readGenres lib).map (fun w => List.count w (readGenres lib)) :=
          List.mem_map.mpr ⟨x, hx, rfl⟩
        rw [hgc]
        exact le_foldr_max _ _ hmap
      · intro x hx hxc
        have hxd : x ∈ distinctVals (readGenres lib) :=
          (mem_distinctVals (readGenres lib) x).mpr hx
        have hxm : x ∈ seriesMode (readGenres lib) :=
          (mem_seriesMode (readGenres lib) x).mpr ⟨hxd, by rw [hxc, hgc]⟩
        have hsorted := seriesMode_sorted (readGenres lib)
        cases hmm : seriesMode (readGenres lib) with
        | nil => rw [hmm] at hgm; cases hgm
        | cons g0 t =>
          rw [hmm] at hg
          rw [List.head?_cons] at hg
          have hg0 : g0 = g := Option.some.inj hg
          rw [hmm, hg0] at hsorted hxm
          rcases List.mem_cons.mp hxm with heq | hxt
          · rw [heq]
            exact strLe_refl g
          · exact List.rel_of_pairwise_cons hsorted hxt
    · rw [if_neg hany] at hg
      exact absurd hg (by simp)

/-- Witness for C10: the empty catalog yields no genre recommendation, and
in a catalog whose read books tie between genres "a" and "b" the
recommended genre "a" is smallest among, and as frequent as, both. -/
theorem mostReadGenre_correct_witness :
    mostReadGenre [] = none ∧
    ((['a'] : Str) ∈ readGenres demoLibG ∧
      (∀ x ∈ readGenres demoLibG,
        List.count x (readGenres demoLibG) ≤ List.count ['a'] (readGenres demoLibG)) ∧
      (∀ x ∈ readGenres demoLibG,
        List.count x (readGenres demoLibG) = List.count ['a'] (readGenres demoLibG) →
          strLe ['a'] x = true)) :=
  ⟨(mostReadGenre_correct []).1 rfl,
    (mostReadGenre_correct demoLibG).2 ['a'] (by decide)⟩
